import Mathlib

/-!
Verification development for the SPEC-0 compliance bot (`spec0_bot.py`).

The program is a dependency-freshness auditor: it parses declared
dependencies, queries a package index for publication dates, classifies
versions as outdated against a two-year window, resolves the oldest
still-compliant replacement version, and rewrites three declaration
syntaxes (plain requirement lines, a pyproject dependencies array, a
setup.py build script) in place.

Shallow embedding conventions:
* file content is a list of lines, each line a `List Char`, as produced by
  Python `readlines()` (each element keeps its trailing newline);
* timestamps are integer seconds (`Int`); `datetime` subtraction followed
  by `.days` is floored division by 86400 (`Int.fdiv`), exactly Python's
  `timedelta.days` normalization;
* the fractional-year constant 365.25 and ages are modelled in `ℚ`; for the
  integer day counts and window sizes involved the float arithmetic of the
  source is exact, so the rational model is faithful;
* network access and JSON decoding are modelled by an
  `Option (List Release)` response: `none` is any transport error or
  malformed body, `some releases` a decoded `releases` mapping in dict
  (insertion) order;
* the external `packaging` library (`Requirement`, `Version`) is not part
  of this repository; where its behaviour matters it is an explicit
  parameter (`reqName`) or an abstract pre-parsed shape (`ParsedReq`),
  with `none` standing for a raised parse exception.
-/

/-- Python `str.strip()` whitespace characters (the ASCII ones; the source
only ever meets ASCII requirement lines). -/
def isSpaceChar (c : Char) : Bool :=
  c = ' ' || c = '\t' || c = '\n' || c = '\r' || c = '\x0b' || c = '\x0c'

/-- The character class `[<>=!~]` used by the rewriters' patterns. -/
def isOpChar (c : Char) : Bool :=
  c = '<' || c = '>' || c = '=' || c = '!' || c = '~'

/-- Drop leading characters satisfying `p` (one side of Python `strip`). -/
def stripLeadBy (p : Char → Bool) (l : List Char) : List Char :=
  l.dropWhile p

/-- Drop trailing characters satisfying `p`. -/
def stripTrailBy (p : Char → Bool) (l : List Char) : List Char :=
  (l.reverse.dropWhile p).reverse

/-- Python `str.strip(chars)`: drop the characters from both ends. -/
def stripBy (p : Char → Bool) (l : List Char) : List Char :=
  stripTrailBy p (stripLeadBy p l)

/-- Python `line.strip()`. -/
def strip (l : List Char) : List Char :=
  stripBy isSpaceChar l

/-- Python `s.strip('",')` as used by `get_line_package`. -/
def stripQuoteComma (l : List Char) : List Char :=
  stripBy (fun c => c = '"' || c = ',') l

/-- `$`-anchored tail semantics of `.*$` in Python `re` (no `re.M`):
the remaining text must contain no newline, except possibly a single
newline as its very last character. -/
def dollarTail (l : List Char) : Bool :=
  !(l.contains '\n') || (l.getLast? = some '\n' && !(l.dropLast.contains '\n'))

/-- An entry of the `outdated` list handed to the rewriters: the Python
tuple `(pkg, old_version, new_version)` of `main`. -/
structure OutdatedEntry where
  pkg : List Char
  old_version : List Char
  new_version : List Char

/-- The anchored match `re.compile(rf"^{re.escape(pkg)}\s*([<>=!~]=?.*)?$").match(stripped)`
of `patch_requirements_file`, run on the stripped line.  After the literal
package name, greedy `\s*` with backtracking is equivalent to dropping the
maximal whitespace run, because the optional group can only start with an
operator character (never whitespace) and an empty group leaves `$`, which
the skipped whitespace would block; `=?.*` then accepts any `$`-admissible
tail, so only the first character after the whitespace decides. -/
def reqTailMatch : List Char → Bool
  | [] => true
  | c :: rest => isOpChar c && dollarTail rest

def matchesReq (pkg stripped : List Char) : Bool :=
  pkg.isPrefixOf stripped &&
    reqTailMatch ((stripped.drop pkg.length).dropWhile isSpaceChar)

/-- The whole replacement line `f"{pkg}>={new_version}\n"` written by
`patch_requirements_file` for a matching line. -/
def reqReplacement (e : OutdatedEntry) : List Char :=
  e.pkg ++ '>' :: '=' :: (e.new_version ++ ['\n'])

/-- One iteration of the `patch_requirements_file` loop body: returns the
emitted line together with the `print`ed `(old, new)` change (stripped, as
printed). -/
def patchReqLineL (outdated : List OutdatedEntry) (line : List Char) :
    List Char × List (List Char × List Char) :=
  let stripped := strip line
  if stripped.head? = some '#' || stripped.isEmpty then (line, [])
  else
    match outdated.find? (fun e => matchesReq e.pkg stripped) with
    | some e => (reqReplacement e, [(stripped, strip (reqReplacement e))])
    | none => (line, [])

/-- The emitted line alone. -/
def patchReqLine (outdated : List OutdatedEntry) (line : List Char) : List Char :=
  (patchReqLineL outdated line).1

/-- The full `patch_requirements_file` loop: `new_lines` and the log of
printed changes, in order. -/
def patch_requirements_core (outdated : List OutdatedEntry) :
    List (List Char) → List (List Char) × List (List Char × List Char)
  | [] => ([], [])
  | l :: ls =>
    let r := patchReqLineL outdated l
    let rest := patch_requirements_core outdated ls
    (r.1 :: rest.1, r.2 ++ rest.2)

/-- `patch_requirements_file(path, outdated, dry_run)`: the first component
is the write to disk (`none` when `dry_run` suppresses it), the second the
printed change log. -/
def patch_requirements_file (outdated : List OutdatedEntry)
    (lines : List (List Char)) (dry_run : Bool) :
    Option (List (List Char)) × List (List Char × List Char) :=
  let r := patch_requirements_core outdated lines
  (if dry_run then none else some r.1, r.2)

/-- Interpretation of a possible write against current on-disk content. -/
def applyWrite (disk : List (List Char)) (w : Option (List (List Char))) :
    List (List Char) :=
  w.getD disk

/-! ### The setup.py rewriter's regex

`patch_setup_py` uses `rf"{re.escape(pkg)}\s*[<>=!~]=?\s*{re.escape(old_version)}"`
with `.search` and `.sub`.  The matchers below return the length of the
match starting at the head of the given suffix, following Python's
leftmost / greedy-with-backtracking order. -/

/-- Match the literal `lit` at the head of `s` (what a `re.escape`d chunk
does), returning the consumed length. -/
def litHere (lit s : List Char) : Option Nat :=
  if lit.isPrefixOf s then some lit.length else none

/-- Greedy `\s*` followed by continuation `cont`: consume the longest
whitespace run first and backtrack one character at a time, exactly the
regex engine's order.  Returns the total consumed length. -/
def wsThen (cont : List Char → Option Nat) : List Char → Option Nat
  | [] => cont []
  | c :: cs =>
    if isSpaceChar c then
      match wsThen cont cs with
      | some n => some (n + 1)
      | none => cont (c :: cs)
    else cont (c :: cs)

/-- Match `[<>=!~]=?\s*{old}` at the head of `s`.  The greedy `=?` prefers
consuming a `=` and falls back to the empty alternative. -/
def opTail (old : List Char) : List Char → Option Nat
  | [] => none
  | c :: cs =>
    if isOpChar c then
      match cs with
      | '=' :: cs2 =>
        match wsThen (litHere old) cs2 with
        | some n => some (n + 2)
        | none =>
          match wsThen (litHere old) ('=' :: cs2) with
          | some n => some (n + 1)
          | none => none
      | _ =>
        match wsThen (litHere old) cs with
        | some n => some (n + 1)
        | none => none
    else none

/-- Match the full setup.py pattern `{pkg}\s*[<>=!~]=?\s*{old}` at the head
of `s`, returning the length of the matched span. -/
def setupMatchAt (pkg old s : List Char) : Option Nat :=
  match litHere pkg s with
  | some k => (wsThen (opTail old) (s.drop k)).map (· + k)
  | none => none

/-- `re.search` of the setup.py pattern: a match starts at some position. -/
def setupSearch (pkg old : List Char) : List Char → Bool
  | [] => (setupMatchAt pkg old []).isSome
  | c :: cs => (setupMatchAt pkg old (c :: cs)).isSome || setupSearch pkg old cs

/-- `re.sub` of the setup.py pattern with replacement `f"{pkg}>={new_version}"`:
replace each leftmost non-overlapping match and resume after its end.  The
`skip` counter carries the tail of the current match still to be dropped;
every match has length ≥ 1 (the operator character is mandatory), so
resuming `skip = n - 1` positions into the tail is exactly `drop n`. -/
def setupSubAux (pkg old new : List Char) : Nat → List Char → List Char
  | _ + 1, [] => []
  | k + 1, _ :: cs => setupSubAux pkg old new k cs
  | 0, [] => []
  | 0, c :: cs =>
    match setupMatchAt pkg old (c :: cs) with
    | some n => (pkg ++ '>' :: '=' :: new) ++ setupSubAux pkg old new (n - 1) cs
    | none => c :: setupSubAux pkg old new 0 cs

/-- `pattern.sub(f"{pkg}>={new_version}", line)`. -/
def setupSub (pkg old new line : List Char) : List Char :=
  setupSubAux pkg old new 0 line

/-- One iteration of the `patch_setup_py` loop body (emitted line plus the
printed change). -/
def patchSetupLineL (outdated : List OutdatedEntry) (line : List Char) :
    List Char × List (List Char × List Char) :=
  match outdated.find? (fun e => setupSearch e.pkg e.old_version line) with
  | some e =>
    let nl := setupSub e.pkg e.old_version e.new_version line
    (nl, [(strip line, strip nl)])
  | none => (line, [])

/-- The emitted line alone. -/
def patchSetupLine (outdated : List OutdatedEntry) (line : List Char) : List Char :=
  (patchSetupLineL outdated line).1

/-- The full `patch_setup_py` loop. -/
def patch_setup_core (outdated : List OutdatedEntry) :
    List (List Char) → List (List Char) × List (List Char × List Char)
  | [] => ([], [])
  | l :: ls =>
    let r := patchSetupLineL outdated l
    let rest := patch_setup_core outdated ls
    (r.1 :: rest.1, r.2 ++ rest.2)

/-- `patch_setup_py(path, outdated, dry_run)`. -/
def patch_setup_py (outdated : List OutdatedEntry)
    (lines : List (List Char)) (dry_run : Bool) :
    Option (List (List Char)) × List (List Char × List Char) :=
  let r := patch_setup_core outdated lines
  (if dry_run then none else some r.1, r.2)

/-! ### The pyproject.toml rewriter

`patch_pyproject_file` scans lines with an `inside_deps` flag, recovers a
package name per line via `Requirement(line.strip().strip('",')).name`
(modelled by the `reqName` parameter, `none` = parse exception), and
rewrites with `re.sub(r">=?\s*[\d\.a-zA-Z]+", f">={new_version}", line)`. -/

/-- The character class `[\d\.a-zA-Z]`. -/
def isVerChar (c : Char) : Bool :=
  c.isDigit || c = '.' || ('a' ≤ c && c ≤ 'z') || ('A' ≤ c && c ≤ 'Z')

/-- Match `\s*[\d\.a-zA-Z]+` at the head of `s` (the part of the version
pattern after `>=?`).  Whitespace and class characters are disjoint and
nothing follows the greedy `+`, so maximal-munch needs no backtracking:
take the maximal whitespace run, then a non-empty maximal class run. -/
def verTail (s : List Char) : Option Nat :=
  let rest := s.dropWhile isSpaceChar
  let run := rest.takeWhile isVerChar
  if run.isEmpty then none else some ((s.length - rest.length) + run.length)

/-- Match `>=?\s*[\d\.a-zA-Z]+` at the head of `s`.  When the `=` branch of
greedy `=?` fails, the empty branch would restart `\s*[\d\.a-zA-Z]+` at the
`=` itself, which is neither whitespace nor a class character, so the
fallback always fails and is omitted. -/
def verBoundMatchAt : List Char → Option Nat
  | '>' :: '=' :: r =>
    match verTail r with
    | some n => some (n + 2)
    | none => none
  | '>' :: r => (verTail r).map (· + 1)
  | _ => none

/-- `re.sub(r">=?\s*[\d\.a-zA-Z]+", f">={new}", line)`: every match has
length ≥ 2, so resuming `skip = n - 1` into the tail is exactly `drop n`. -/
def verBoundSubAux (new : List Char) : Nat → List Char → List Char
  | _ + 1, [] => []
  | k + 1, _ :: cs => verBoundSubAux new k cs
  | 0, [] => []
  | 0, c :: cs =>
    match verBoundMatchAt (c :: cs) with
    | some n => ('>' :: '=' :: new) ++ verBoundSubAux new (n - 1) cs
    | none => c :: verBoundSubAux new 0 cs

/-- The pyproject version-bound substitution on one line. -/
def verBoundSub (new line : List Char) : List Char :=
  verBoundSubAux new 0 line

/-- `get_line_package` of the source: `Requirement(line.strip().strip('",')).name`,
with the `packaging` library's parser abstracted as `reqName` (`none`
models the caught exception). -/
def get_line_package (reqName : List Char → Option (List Char))
    (s : List Char) : Option (List Char) :=
  reqName (stripQuoteComma (strip s))

/-- The `inside_deps` flag update performed at the top of each loop
iteration: entering on a stripped line starting with `"dependencies = ["`,
leaving on a stripped line starting with `"]"`. -/
def insideStep (inside : Bool) (line : List Char) : Bool :=
  let stripped := strip line
  let i1 := if (("dependencies = [").toList).isPrefixOf stripped then true else inside
  if i1 && stripped.head? = some ']' then false else i1

/-- Substring containment, Python `old_version in line`. -/
def containsSub (pat : List Char) : List Char → Bool
  | [] => pat.isPrefixOf []
  | c :: cs => pat.isPrefixOf (c :: cs) || containsSub pat cs

/-- One iteration of the `patch_pyproject_file` loop body, given the flag
value after this line's update: emitted line and printed change. -/
def patchPyprojLineL (reqName : List Char → Option (List Char))
    (outdated : List OutdatedEntry) (inside2 : Bool) (line : List Char) :
    List Char × List (List Char × List Char) :=
  let stripped := strip line
  if inside2 && !stripped.isEmpty then
    match get_line_package reqName stripped with
    | some pkg =>
      match outdated.find? (fun e => pkg == e.pkg && containsSub e.old_version line) with
      | some e =>
        let nl := verBoundSub e.new_version line
        (nl, [(strip line, strip nl)])
      | none => (line, [])
    | none => (line, [])
  else (line, [])

/-- The full `patch_pyproject_file` loop, threading `inside_deps`. -/
def patch_pyproject_core (reqName : List Char → Option (List Char))
    (outdated : List OutdatedEntry) :
    Bool → List (List Char) → List (List Char) × List (List Char × List Char)
  | _, [] => ([], [])
  | inside, l :: ls =>
    let inside2 := insideStep inside l
    let r := patchPyprojLineL reqName outdated inside2 l
    let rest := patch_pyproject_core reqName outdated inside2 ls
    (r.1 :: rest.1, r.2 ++ rest.2)

/-- `patch_pyproject_file(path, outdated, dry_run)` (flag starts `False`). -/
def patch_pyproject_file (reqName : List Char → Option (List Char))
    (outdated : List OutdatedEntry) (lines : List (List Char)) (dry_run : Bool) :
    Option (List (List Char)) × List (List Char × List Char) :=
  let r := patch_pyproject_core reqName outdated false lines
  (if dry_run then none else some r.1, r.2)

/-! ### The Index Client

One entry of the decoded `releases` dict.  `files` models the release-file
list; each element is the file's parsed `upload_time_iso_8601` timestamp in
integer seconds, `none` standing for a missing/falsy/unparseable field.
`versionValid` records whether `Version(version_str)` parses (an invalid
key raises inside the per-version `try` of `get_latest_version` and the
version is skipped). -/
structure Release where
  version : String
  versionValid : Bool
  files : List (Option Int)

/-- `SPEC0_DEP_AGE_YEARS = 2`. -/
def SPEC0_DEP_AGE_YEARS : Int := 2

/-- One year of the SPEC-0 clock, `365.25 * 24 * 3600` seconds (exact). -/
def YEAR_SECONDS : Int := 31557600

/-- `spec0_cutoff = datetime.now().timestamp() - SPEC0_DEP_AGE_YEARS * 365.25 * 24 * 3600`
(exact in integer seconds: `2 * 31557600 = 63115200`). -/
def spec0_cutoff (now : Int) : Int :=
  now - SPEC0_DEP_AGE_YEARS * YEAR_SECONDS

/-- `files[0].get("upload_time_iso_8601")` parsed, or `none` when the list
is empty / the field missing or unparseable. -/
def firstUpload (r : Release) : Option Int :=
  match r.files with
  | [] => none
  | f :: _ => f

/-- One iteration of the `for version_str, files in releases.items()` loop
of `get_latest_version`: the appended pair, or `none` when the iteration
`continue`s (empty file list, missing/falsy/unparseable upload time, time
before the cutoff, or unparseable version key). -/
def compliantEntry (now : Int) (r : Release) : Option (String × Int) :=
  match firstUpload r with
  | some t =>
    if r.versionValid && decide (spec0_cutoff now ≤ t) then some (r.version, t)
    else none
  | none => none

/-- The `compliant_versions` list accumulated by `get_latest_version`, in
dict (insertion) order. -/
def compliant_versions (releases : List Release) (now : Int) :
    List (String × Int) :=
  releases.filterMap (compliantEntry now)

/-- `sorted(compliant_versions, key=lambda x: x[1])[0]`: the element with
the least upload time; Python's sort is stable, so ties keep the earlier
list position, as does this left fold with a strict comparison. -/
def pickOldest : List (String × Int) → Option (String × Int)
  | [] => none
  | x :: xs => some (xs.foldl (fun a b => if b.2 < a.2 then b else a) x)

/-- `get_latest_version(pkg_name)`: `resp` is the decoded index response
(`none` = transport error / malformed body, which the `try` turns into
`None`). Despite its name it returns the oldest version whose first upload
time is at least the cutoff. -/
def get_latest_version (resp : Option (List Release)) (now : Int) :
    Option String :=
  match resp with
  | none => none
  | some releases =>
    match pickOldest (compliant_versions releases now) with
    | some p => some p.1
    | none => none

/-- The selection described by the spec's words, for comparison: filter to
versions whose publication time lies within `[now - window, now]` and pick
the earliest among the survivors (absent when none survives). -/
def get_latest_version_specwords (resp : Option (List Release)) (now : Int) :
    Option String :=
  match resp with
  | none => none
  | some releases =>
    let inWindow := (compliant_versions releases now).filter fun p =>
      decide (p.2 ≤ now)
    match pickOldest inWindow with
    | some p => some p.1
    | none => none

/-- `get_release_date(pkg_name, version)`: dict lookup of the (already
normalized) version key, empty-file-list and missing-field defense, parsed
first upload time. -/
def get_release_date (resp : Option (List Release)) (version : String) :
    Option Int :=
  match resp with
  | none => none
  | some releases =>
    match releases.find? (fun r => r.version == version) with
    | none => none
    | some r => firstUpload r

/-- `is_outdated(release_date, max_years)`:
`release_date and (datetime.now() - release_date).days / 365.25 > max_years`.
A `None` date is falsy, so the result is non-true.  `timedelta.days` is the
floored quotient of the elapsed seconds by 86400; the float division by
365.25 and comparison are exact in `ℚ` for these magnitudes. -/
def is_outdated (release_date : Option Int) (max_years : ℚ) (now : Int) :
    Bool :=
  match release_date with
  | none => false
  | some d =>
    decide ((((now - d).fdiv 86400 : Int) : ℚ) / (365.25 : ℚ) > max_years)

/-! ### Requirement parsing and the main loop

`extract_required_version(dep)` iterates the `Requirement`'s specifier set.
A pre-parsed requirement is `none` (the `Requirement` constructor raised)
or a name together with the specifiers in iteration order; each specifier
carries its operator and the result of `Version(spec.version)` (`none` =
`InvalidVersion` raised, which aborts the whole call through the outer
`except`). -/
abbrev ParsedReq := Option (String × List (String × Option String))

/-- The specifier loop of `extract_required_version`. -/
def extractGo (name : String) :
    List (String × Option String) → Option String × Option String
  | [] => (some name, none)
  | (op, v) :: rest =>
    if op == ">=" || op == "==" then
      match v with
      | some ver => (some name, some ver)
      | none => (none, none)
    else extractGo name rest

/-- `extract_required_version(dep)`. -/
def extract_required_version (parsed : ParsedReq) :
    Option String × Option String :=
  match parsed with
  | none => (none, none)
  | some (name, specs) => extractGo name specs

/-- Whether the dependency loop of `main` reaches the release-date lookup
for this entry (`if not pkg or not required_version: continue`). -/
def dep_has_version (dep : ParsedReq) : Bool :=
  match extract_required_version dep with
  | (some _, some _) => true
  | _ => false

/-- Whether the dependency loop of `main` additionally reaches the
replacement lookup (`if release_date and is_outdated(...)`). -/
def dep_outdated (index : String → Option (List Release)) (now : Int)
    (dep : ParsedReq) : Bool :=
  match extract_required_version dep with
  | (some pkg, some ver) =>
    let rd := get_release_date (index pkg) ver
    rd.isSome && is_outdated rd (SPEC0_DEP_AGE_YEARS : ℚ) now
  | _ => false

/-- The dependency loop of `main`: builds `outdated_pkgs` and, for claim
C9, the list of network queries issued (one per `requests.get`, i.e. one
for each `get_release_date` call and one for each `get_latest_version`
call), in order. -/
def main_process (index : String → Option (List Release)) (now : Int) :
    List ParsedReq → List (String × String × String) × List String
  | [] => ([], [])
  | dep :: rest =>
    let r := main_process index now rest
    match extract_required_version dep with
    | (some pkg, some ver) =>
      let rd := get_release_date (index pkg) ver
      if rd.isSome && is_outdated rd (SPEC0_DEP_AGE_YEARS : ℚ) now then
        match get_latest_version (index pkg) now with
        | some latest => ((pkg, ver, latest) :: r.1, pkg :: pkg :: r.2)
        | none => (r.1, pkg :: pkg :: r.2)
      else (r.1, pkg :: r.2)
    | _ => r

/-- The synthetic release history of the claim: versions at ages
{0.5, 1.0, 1.9, 2.1, 3.0} years (1 year = 31557600 s) before the
evaluation time 100000000. -/
def agesHistory : List Release :=
  [⟨"v3.0", true, [some 5327200]⟩, ⟨"v0.5", true, [some 84221200]⟩,
   ⟨"v1.9", true, [some 40040560]⟩, ⟨"v1.0", true, [some 68442400]⟩,
   ⟨"v2.1", true, [some 33729040]⟩]

/-- The `inside_deps` flag in force when line `i` is about to be processed,
starting from flag value `inside`. -/
def insideFrom (inside : Bool) (ls : List (List Char)) (i : Nat) : Bool :=
  (ls.take i).foldl insideStep inside

/-- Package-name hygiene: no whitespace and no operator characters.  All
real package names satisfy this; a name violating it can alias the
rewritten line of another entry. -/
def cleanPkg (p : List Char) : Bool :=
  p.all (fun c => !isSpaceChar c && !isOpChar c)

/-! ### General helper lemmas -/

theorem isPrefixOf_append_self (p t : List Char) :
    p.isPrefixOf (p ++ t) = true := by
  induction p with
  | nil => simp [List.isPrefixOf]
  | cons c p ih => simp [List.isPrefixOf, ih]

theorem eq_append_of_isPrefixOf {p s : List Char}
    (h : p.isPrefixOf s = true) : ∃ t, s = p ++ t := by
  induction p generalizing s with
  | nil => exact ⟨s, rfl⟩
  | cons c p ih =>
    cases s with
    | nil => simp [List.isPrefixOf] at h
    | cons b bs =>
      simp only [List.isPrefixOf, Bool.and_eq_true, beq_iff_eq] at h
      obtain ⟨t, rfl⟩ := ih h.2
      exact ⟨t, by simp [h.1]⟩

theorem find?_decomp {α : Type} {p : α → Bool} {l : List α} {b : α}
    (h : l.find? p = some b) :
    p b = true ∧ ∃ l₁ l₂, l = l₁ ++ b :: l₂ ∧ ∀ a ∈ l₁, p a = false := by
  induction l with
  | nil => simp at h
  | cons c t ih =>
    by_cases hc : p c
    · rw [List.find?_cons_of_pos _ hc] at h
      obtain rfl : c = b := by injection h
      exact ⟨hc, [], t, rfl, by simp⟩
    · rw [List.find?_cons_of_neg _ hc] at h
      obtain ⟨hb, l₁, l₂, rfl, hall⟩ := ih h
      refine ⟨hb, c :: l₁, l₂, rfl, ?_⟩
      intro a ha
      rcases List.mem_cons.1 ha with rfl | ha
      · exact Bool.eq_false_iff.2 hc
      · exact hall a ha

theorem find?_append_all_false {α : Type} {p : α → Bool} {l₁ : List α}
    (l₂ : List α) (h : ∀ a ∈ l₁, p a = false) :
    (l₁ ++ l₂).find? p = l₂.find? p := by
  induction l₁ with
  | nil => rfl
  | cons c t ih =>
    have hc : ¬p c = true := by simp [h c (by simp)]
    rw [List.cons_append, List.find?_cons_of_neg _ hc]
    exact ih fun a ha => h a (List.mem_cons_of_mem _ ha)

/-! ### Claim C5: dry-run is a strict no-op on disk -/

/-- Claim C5: for every file and outdated set, each of the three rewriters
invoked with dry-run enabled produces no write (the on-disk content is
unchanged), while the computed old-line-to-new-line change log is exactly
the one a live run would produce. -/
theorem claim_C5 :
    (∀ outdated lines,
      (patch_requirements_file outdated lines true).1 = none
      ∧ applyWrite lines (patch_requirements_file outdated lines true).1 = lines
      ∧ (patch_requirements_file outdated lines true).2
          = (patch_requirements_file outdated lines false).2)
    ∧ (∀ reqName outdated lines,
      (patch_pyproject_file reqName outdated lines true).1 = none
      ∧ applyWrite lines (patch_pyproject_file reqName outdated lines true).1 = lines
      ∧ (patch_pyproject_file reqName outdated lines true).2
          = (patch_pyproject_file reqName outdated lines false).2)
    ∧ (∀ outdated lines,
      (patch_setup_py outdated lines true).1 = none
      ∧ applyWrite lines (patch_setup_py outdated lines true).1 = lines
      ∧ (patch_setup_py outdated lines true).2
          = (patch_setup_py outdated lines false).2) :=
  ⟨fun _ _ => ⟨rfl, rfl, rfl⟩, fun _ _ _ => ⟨rfl, rfl, rfl⟩,
   fun _ _ => ⟨rfl, rfl, rfl⟩⟩

/-! ### Claim C2: the outdated threshold -/

/-- Unfolding of `is_outdated` on a present date. -/
theorem is_outdated_some_iff (d now : Int) (w : ℚ) :
    is_outdated (some d) w now = true ↔
      365.25 * w < (((now - d).fdiv 86400 : Int) : ℚ) := by
  simp only [is_outdated, decide_eq_true_eq, gt_iff_lt,
    lt_div_iff₀ (by norm_num : (0 : ℚ) < 365.25)]
  rw [mul_comm]

/-- For the 2-year window, `is_outdated` fires exactly at 731 whole
elapsed days, i.e. 63158400 elapsed seconds. -/
theorem is_outdated_two_iff (d now : Int) :
    is_outdated (some d) 2 now = true ↔ 63158400 ≤ now - d := by
  rw [is_outdated_some_iff]
  constructor
  · intro h
    have h730 : (730 : Int) < (now - d).fdiv 86400 := by
      have : ((730 : Int) : ℚ) < (((now - d).fdiv 86400 : Int) : ℚ) := by
        calc ((730 : Int) : ℚ) < 365.25 * 2 := by norm_num
        _ < _ := h
      exact_mod_cast this
    have h731 : (731 : Int) ≤ (now - d).fdiv 86400 := h730
    rw [Int.fdiv_eq_ediv _ (by norm_num : (0:Int) ≤ 86400)] at h731
    have := (Int.le_ediv_iff_mul_le (by norm_num : (0:Int) < 86400)).1 h731
    linarith
  · intro h
    have h731 : (731 : Int) ≤ (now - d).fdiv 86400 := by
      rw [Int.fdiv_eq_ediv _ (by norm_num : (0:Int) ≤ 86400)]
      exact (Int.le_ediv_iff_mul_le (by norm_num : (0:Int) < 86400)).2
        (by linarith)
    have hc : ((731 : Int) : ℚ) ≤ (((now - d).fdiv 86400 : Int) : ℚ) := by
      exact_mod_cast h731
    calc (365.25 : ℚ) * 2 < ((731 : Int) : ℚ) := by norm_num
    _ ≤ _ := hc

/-- Counterexample to claim C2: a version whose age is the window plus
0.01 days (730.51 days = 63116064 seconds for the 2-year window) is NOT
classified outdated, contrary to the claim: `timedelta.days` truncates
730.51 elapsed days to 730 whole days and 730 / 365.25 ≤ 2. -/
theorem claim_C2_counterexample :
    (63116064 : ℚ) / 86400 = 730.51
    ∧ (63116064 : Int).fdiv 86400 = 730
    ∧ is_outdated (some 0) 2 63116064 = false := by
  refine ⟨by norm_num, by decide, ?_⟩
  rw [Bool.eq_false_iff, Ne, is_outdated_two_iff]
  norm_num

/-- Claim C2 (amended): `is_outdated` computes the age as
`(now - publication_time).days / 365.25` and classifies outdated exactly
when that age strictly exceeds the window; a version aged exactly 730.5
days for the 2-year window is NOT outdated, but — because `.days`
truncates to whole days — a version aged the window plus 0.01 days is
ALSO not outdated; for the 2-year window a version becomes outdated
exactly when at least 731 whole days (63158400 seconds) have elapsed. -/
theorem claim_C2_amended :
    (∀ d now (w : ℚ), is_outdated (some d) w now = true ↔
        365.25 * w < (((now - d).fdiv 86400 : Int) : ℚ))
    ∧ (∀ d now, is_outdated (some d) 2 now = true ↔ 63158400 ≤ now - d)
    ∧ is_outdated (some 0) 2 63115200 = false
    ∧ is_outdated (some 0) 2 63116064 = false
    ∧ is_outdated (some 0) 2 63158400 = true := by
  refine ⟨is_outdated_some_iff, is_outdated_two_iff, ?_, ?_, ?_⟩
  · rw [Bool.eq_false_iff, Ne, is_outdated_two_iff]; norm_num
  · rw [Bool.eq_false_iff, Ne, is_outdated_two_iff]; norm_num
  · rw [is_outdated_two_iff]; norm_num

/-- Witness for claim C2 (amended) at a concrete input: 731 elapsed days
is outdated for the 2-year window. -/
theorem claim_C2_witness :
    is_outdated (some 0) 2 63158400 = true
    ∧ (63158400 : Int) ≤ 63158400 - 0 :=
  ⟨(claim_C2_amended.2.1 0 63158400).2 (by norm_num), by norm_num⟩

/-! ### Claims C6 and C1: the Index Client -/

theorem firstUpload_ne_nil {r : Release} {t : Int}
    (h : firstUpload r = some t) : r.files ≠ [] := by
  cases hf : r.files with
  | nil => rw [firstUpload, hf] at h; exact absurd h (by simp)
  | cons a l => simp [hf]

/-- When the loop body of `get_latest_version` appends a pair. -/
theorem compliantEntry_eq_some_iff {now : Int} {r : Release} {v : String}
    {t : Int} :
    compliantEntry now r = some (v, t) ↔
      r.version = v ∧ firstUpload r = some t ∧
        r.versionValid = true ∧ spec0_cutoff now ≤ t := by
  cases hfu : firstUpload r with
  | none => simp [compliantEntry, hfu]
  | some t' =>
    simp only [compliantEntry, hfu]
    by_cases hcond : (r.versionValid && decide (spec0_cutoff now ≤ t')) = true
    · simp only [Bool.and_eq_true, decide_eq_true_eq] at hcond
      simp [hcond, Option.some.injEq, Prod.mk.injEq]
      rintro rfl rfl
      exact hcond.2
    · rw [if_neg hcond]
      simp only [Bool.and_eq_true, decide_eq_true_eq] at hcond
      constructor
      · intro h; exact absurd h (by simp)
      · rintro ⟨-, ht, hval, hcut⟩
        obtain rfl : t' = t := by injection ht
        exact absurd ⟨hval, hcut⟩ hcond

/-- Membership in the accumulated `compliant_versions` list, read back as
a statement about the decoded releases. -/
theorem mem_compliant_versions {releases : List Release} {now : Int}
    {v : String} {t : Int} :
    (v, t) ∈ compliant_versions releases now ↔
      ∃ r ∈ releases, r.version = v ∧ firstUpload r = some t ∧
        r.versionValid = true ∧ spec0_cutoff now ≤ t := by
  simp only [compliant_versions, List.mem_filterMap, compliantEntry_eq_some_iff]

theorem foldlMin_spec (xs : List (String × Int)) (a : String × Int) :
    (xs.foldl (fun a b => if b.2 < a.2 then b else a) a = a ∨
     xs.foldl (fun a b => if b.2 < a.2 then b else a) a ∈ xs)
    ∧ (xs.foldl (fun a b => if b.2 < a.2 then b else a) a).2 ≤ a.2
    ∧ ∀ y ∈ xs, (xs.foldl (fun a b => if b.2 < a.2 then b else a) a).2 ≤ y.2 := by
  induction xs generalizing a with
  | nil => simp
  | cons b t ih =>
    simp only [List.foldl_cons]
    obtain ⟨hmem, hle, hall⟩ := ih (if b.2 < a.2 then b else a)
    have hle_a : (if b.2 < a.2 then b else a).2 ≤ a.2 := by
      by_cases hb : b.2 < a.2
      · simp only [if_pos hb]; omega
      · simp [hb]
    have hle_b : (if b.2 < a.2 then b else a).2 ≤ b.2 := by
      by_cases hb : b.2 < a.2
      · simp [hb]
      · simp only [if_neg hb]; omega
    refine ⟨?_, le_trans hle hle_a, ?_⟩
    · rcases hmem with h | h
      · rw [h]
        by_cases hb : b.2 < a.2
        · right; simp [hb]
        · left; simp [hb]
      · right; exact List.mem_cons_of_mem _ h
    · intro y hy
      rcases List.mem_cons.1 hy with rfl | hy
      · exact le_trans hle hle_b
      · exact hall y hy

theorem pickOldest_spec {l : List (String × Int)} {x : String × Int}
    (h : pickOldest l = some x) : x ∈ l ∧ ∀ y ∈ l, x.2 ≤ y.2 := by
  cases l with
  | nil => exact absurd h (by simp [pickOldest])
  | cons a xs =>
    simp only [pickOldest, Option.some.injEq] at h
    subst h
    obtain ⟨hmem, hle, hall⟩ := foldlMin_spec xs a
    constructor
    · rcases hmem with h | h
      · rw [h]; exact List.mem_cons_self a xs
      · exact List.mem_cons_of_mem _ h
    · intro y hy
      rcases List.mem_cons.1 hy with rfl | hy
      · exact hle
      · exact hall y hy

theorem pickOldest_eq_none_iff {l : List (String × Int)} :
    pickOldest l = none ↔ l = [] := by
  cases l <;> simp [pickOldest]

theorem get_latest_version_eq_some {releases : List Release} {now : Int}
    {v : String} (h : get_latest_version (some releases) now = some v) :
    ∃ t, pickOldest (compliant_versions releases now) = some (v, t) := by
  rw [get_latest_version] at h
  cases hp : pickOldest (compliant_versions releases now) with
  | none => rw [hp] at h; exact absurd h (by simp)
  | some p =>
    obtain ⟨v1, t1⟩ := p
    rw [hp] at h
    simp only [Option.some.injEq] at h
    subst h
    exact ⟨t1, rfl⟩

theorem get_latest_version_eq_some_of_pick {releases : List Release}
    {now : Int} {v : String} {t : Int}
    (hp : pickOldest (compliant_versions releases now) = some (v, t)) :
    get_latest_version (some releases) now = some v := by
  rw [get_latest_version, hp]

/-- Claim C6: a transport error or malformed/absent response yields `None`
from both index queries; a version whose release-file list is empty is
treated as absent by `get_release_date` and is never selected by
`get_latest_version`. -/
theorem claim_C6 :
    (∀ v, get_release_date none v = none)
    ∧ (∀ now, get_latest_version none now = none)
    ∧ (∀ (releases : List Release) (v : String) (r : Release),
        releases.find? (fun r => r.version == v) = some r → r.files = [] →
        get_release_date (some releases) v = none)
    ∧ (∀ (releases : List Release) (now : Int) (v : String),
        get_latest_version (some releases) now = some v →
        ∃ r ∈ releases, r.version = v ∧ r.files ≠ []) := by
  refine ⟨fun _ => rfl, fun _ => rfl, ?_, ?_⟩
  · intro releases v r hfind hfiles
    simp [get_release_date, hfind, firstUpload, hfiles]
  · intro releases now v h
    obtain ⟨t, hp⟩ := get_latest_version_eq_some h
    obtain ⟨hmem, -⟩ := pickOldest_spec hp
    obtain ⟨r, hr, hv, hfu, -, -⟩ := mem_compliant_versions.1 hmem
    exact ⟨r, hr, hv, firstUpload_ne_nil hfu⟩

/-- Witness for claim C6 at a concrete input: a decoded response whose
only entry for the queried version has an empty file list. -/
theorem claim_C6_witness :
    get_release_date (some [⟨"1.0", true, []⟩]) "1.0" = none :=
  claim_C6.2.2.1 [⟨"1.0", true, []⟩] "1.0" ⟨"1.0", true, []⟩ (by rfl) rfl

/-- Counterexample to claim C1: `get_latest_version` does not consider
exactly the versions published within `[now - window, now]` — it never
applies the upper bound.  For a history whose only version is published
5 seconds after the evaluation time, the claimed selection (spelled out by
`get_latest_version_specwords`) is absent, but the code returns that
future-dated version. -/
theorem claim_C1_counterexample :
    get_latest_version (some [⟨"9.9", true, [some 1000000005]⟩]) 1000000000
      = some "9.9"
    ∧ get_latest_version_specwords
        (some [⟨"9.9", true, [some 1000000005]⟩]) 1000000000 = none
    ∧ (1000000000 : Int) < 1000000005 := by
  refine ⟨by rfl, by rfl, by decide⟩

/-- Claim C1 (amended): `get_latest_version` considers exactly the versions
whose first publication time is at least `now - window` (no upper bound at
`now`; future-dated publications are considered too); whenever at least one
considered version exists it returns the one with the earliest publication
time, so whenever at least one version lies within `[now - window, now]`
the returned version is the earliest-published one and itself lies within
`[now - window, now]`; in particular for the history with versions at ages
{0.5, 1.0, 1.9, 2.1, 3.0} years and the 2-year window it returns the
version at age 1.9. -/
theorem claim_C1_amended :
    (∀ releases now (v : String) (t : Int),
        (v, t) ∈ compliant_versions releases now ↔
          ∃ r ∈ releases, r.version = v ∧ firstUpload r = some t ∧
            r.versionValid = true ∧ spec0_cutoff now ≤ t)
    ∧ (∀ releases now (v : String),
        get_latest_version (some releases) now = some v →
          ∃ t, (v, t) ∈ compliant_versions releases now ∧
            ∀ p ∈ compliant_versions releases now, t ≤ p.2)
    ∧ (∀ releases now,
        (∃ p ∈ compliant_versions releases now, p.2 ≤ now) →
          ∃ (v : String) (t : Int),
            get_latest_version (some releases) now = some v ∧
            (v, t) ∈ compliant_versions releases now ∧
            spec0_cutoff now ≤ t ∧ t ≤ now ∧
            ∀ p ∈ compliant_versions releases now, t ≤ p.2)
    ∧ get_latest_version (some agesHistory) 100000000 = some "v1.9" := by
  refine ⟨fun _ _ _ _ => mem_compliant_versions, ?_, ?_, by rfl⟩
  · intro releases now v h
    obtain ⟨t, hp⟩ := get_latest_version_eq_some h
    obtain ⟨hmem, hmin⟩ := pickOldest_spec hp
    exact ⟨t, hmem, hmin⟩
  · intro releases now hex
    obtain ⟨p, hpmem, hpnow⟩ := hex
    cases hpick : pickOldest (compliant_versions releases now) with
    | none =>
      rw [pickOldest_eq_none_iff] at hpick
      rw [hpick] at hpmem
      exact absurd hpmem (by simp)
    | some q =>
      obtain ⟨v, t⟩ := q
      obtain ⟨hmem, hmin⟩ := pickOldest_spec hpick
      refine ⟨v, t, get_latest_version_eq_some_of_pick hpick, hmem, ?_, ?_, hmin⟩
      · exact (mem_compliant_versions.1 hmem).choose_spec.2.2.2.2
      · exact le_trans (hmin p hpmem) hpnow

/-- Witness for claim C1 (amended) at the synthetic history: some version
of `agesHistory` lies within the window, and the selection returns the
age-1.9 version, which is in the window and minimal. -/
theorem claim_C1_witness :
    ∃ (v : String) (t : Int),
      get_latest_version (some agesHistory) 100000000 = some v ∧
      (v, t) ∈ compliant_versions agesHistory 100000000 ∧
      spec0_cutoff 100000000 ≤ t ∧ t ≤ 100000000 ∧
      ∀ p ∈ compliant_versions agesHistory 100000000, t ≤ p.2 :=
  claim_C1_amended.2.2.1 agesHistory 100000000
    ⟨("v1.9", 40040560), by decide, by decide⟩

/-! ### Claim C7: version extraction from a requirement -/

/-- Claim C7: `extract_required_version` yields a version only from a
specifier introduced by `>=` or `==`; with no qualifying operator it
returns the name and no version; a malformed entry yields `(None, None)`
without raising, and the main loop then just moves on to the remaining
entries. -/
theorem claim_C7 :
    (∀ (name : String) specs (n : Option String) (v : String),
        extract_required_version (some (name, specs)) = (n, some v) →
          n = some name ∧ ∃ op, (op, some v) ∈ specs ∧ (op = ">=" ∨ op = "=="))
    ∧ (∀ (name : String) specs,
        (∀ (op : String) (vo : Option String),
            (op, vo) ∈ specs → op ≠ ">=" ∧ op ≠ "==") →
          extract_required_version (some (name, specs)) = (some name, none))
    ∧ extract_required_version none = (none, none)
    ∧ (∀ index now rest,
        main_process index now (none :: rest) = main_process index now rest) := by
  refine ⟨?_, ?_, rfl, fun _ _ _ => rfl⟩
  · intro name specs
    induction specs with
    | nil =>
      intro n v h
      exact absurd (congrArg Prod.snd h) (by simp [extract_required_version, extractGo])
    | cons s rest ih =>
      intro n v h
      obtain ⟨op, vo⟩ := s
      by_cases hop : (op == ">=" || op == "==") = true
      · cases vo with
        | some ver =>
          have hred : extract_required_version (some (name, (op, some ver) :: rest))
              = (some name, some ver) := by
            simp [extract_required_version, extractGo, hop]
          rw [hred] at h
          simp only [Prod.mk.injEq, Option.some.injEq] at h
          simp only [Bool.or_eq_true, beq_iff_eq] at hop
          exact ⟨h.1.symm, op, by simp [h.2], hop⟩
        | none =>
          have hred : extract_required_version (some (name, (op, none) :: rest))
              = (none, none) := by
            simp [extract_required_version, extractGo, hop]
          rw [hred] at h
          exact absurd (congrArg Prod.snd h) (by simp)
      · have hred : extract_required_version (some (name, (op, vo) :: rest))
            = extract_required_version (some (name, rest)) := by
          simp [extract_required_version, extractGo, hop]
        rw [hred] at h
        obtain ⟨hn, op', hmem, hop'⟩ := ih n v h
        exact ⟨hn, op', List.mem_cons_of_mem _ hmem, hop'⟩
  · intro name specs hall
    induction specs with
    | nil => rfl
    | cons s rest ih =>
      obtain ⟨op, vo⟩ := s
      have hs := hall op vo (List.mem_cons_self _ _)
      have hop : (op == ">=" || op == "==") = false := by
        simp [hs.1, hs.2]
      have hred : extract_required_version (some (name, (op, vo) :: rest))
          = extract_required_version (some (name, rest)) := by
        simp [extract_required_version, extractGo, hop]
      rw [hred]
      exact ih fun op' vo' hm => hall op' vo' (List.mem_cons_of_mem _ hm)

/-- Witness for claim C7 at a concrete input: `<`-only specifiers yield no
version. -/
theorem claim_C7_witness :
    extract_required_version (some ("foo", [("<", some "3.0")]))
      = (some "foo", none) :=
  claim_C7.2.1 "foo" [("<", some "3.0")]
    (by intro op vo h; simp at h; simp [h])

/-! ### Claim C10: an undeterminable publication date is never outdated -/

/-- One-step unfolding of the main loop on a cons cell. -/
theorem main_process_cons (index : String → Option (List Release)) (now : Int)
    (dep : ParsedReq) (rest : List ParsedReq) :
    main_process index now (dep :: rest) =
      match extract_required_version dep with
      | (some pkg, some ver) =>
        let rd := get_release_date (index pkg) ver
        if rd.isSome && is_outdated rd (SPEC0_DEP_AGE_YEARS : ℚ) now then
          match get_latest_version (index pkg) now with
          | some latest =>
            ((pkg, ver, latest) :: (main_process index now rest).1,
             pkg :: pkg :: (main_process index now rest).2)
          | none =>
            ((main_process index now rest).1,
             pkg :: pkg :: (main_process index now rest).2)
        else ((main_process index now rest).1, pkg :: (main_process index now rest).2)
      | _ => main_process index now rest := rfl

/-- Claim C10: `is_outdated` on an absent release date is non-true, and a
package whose release date resolves to `None` never enters the
`outdated_pkgs` list built by the main loop. -/
theorem claim_C10 :
    (∀ (w : ℚ) (now : Int), is_outdated none w now = false)
    ∧ (∀ index now deps (pkg ver lat : String),
        (pkg, ver, lat) ∈ (main_process index now deps).1 →
        (get_release_date (index pkg) ver).isSome = true) := by
  refine ⟨fun _ _ => rfl, ?_⟩
  intro index now deps pkg ver lat h
  induction deps with
  | nil => exact absurd h (by simp [main_process])
  | cons dep rest ih =>
    rw [main_process_cons] at h
    cases hx : extract_required_version dep with
    | mk n v =>
      match n, v with
      | some pkg', some ver' =>
        simp only [hx] at h
        by_cases hc : ((get_release_date (index pkg') ver').isSome
            && is_outdated (get_release_date (index pkg') ver')
                (SPEC0_DEP_AGE_YEARS : ℚ) now) = true
        · rw [if_pos hc] at h
          cases hl : get_latest_version (index pkg') now with
          | some latest =>
            simp only [hl] at h
            rcases List.mem_cons.1 h with heq | hmem
            · obtain ⟨rfl, rfl, rfl⟩ : pkg = pkg' ∧ ver = ver' ∧ lat = latest := by
                simpa using heq
              simp only [Bool.and_eq_true] at hc
              exact hc.1
            · exact ih hmem
          | none =>
            simp only [hl] at h
            exact ih h
        · rw [if_neg hc] at h
          exact ih h
      | some pkg', none => simp only [hx] at h; exact ih h
      | none, some ver' => simp only [hx] at h; exact ih h
      | none, none => simp only [hx] at h; exact ih h

/-- Witness for claim C10 at a concrete input: the only produced outdated
entry indeed had a resolvable release date. -/
theorem claim_C10_witness :
    (get_release_date ((fun _ => some [⟨"1.0", true, [some 0]⟩,
        ⟨"1.5", true, [some 150000000]⟩]) "numpy") "1.0").isSome = true :=
  claim_C10.2 (fun _ => some [⟨"1.0", true, [some 0]⟩,
      ⟨"1.5", true, [some 150000000]⟩]) 200000000
    [some ("numpy", [(">=", some "1.0")])] "numpy" "1.0" "1.5"
    (by
      have h2 : ((SPEC0_DEP_AGE_YEARS : Int) : ℚ) = 2 := by
        norm_num [SPEC0_DEP_AGE_YEARS]
      have hout : is_outdated (some 0) ((SPEC0_DEP_AGE_YEARS : Int) : ℚ)
          200000000 = true := by
        rw [h2, is_outdated_two_iff]; norm_num
      have hrd : get_release_date (some [(⟨"1.0", true, [some 0]⟩ : Release),
          ⟨"1.5", true, [some 150000000]⟩]) "1.0" = some 0 := by rfl
      have hl : get_latest_version (some [(⟨"1.0", true, [some 0]⟩ : Release),
          ⟨"1.5", true, [some 150000000]⟩]) 200000000 = some "1.5" := by rfl
      have hx : extract_required_version
          (some ("numpy", [(">=", some "1.0")])) = (some "numpy", some "1.0") := by rfl
      rw [main_process_cons]
      simp only [hx, hrd, hl, hout, Option.isSome_some, Bool.true_and]
      simp)

/-! ### Claim C9: network queries issued by a run -/

/-- Counterexample to claim C9: a single declaration of a single (distinct)
package whose pinned version is outdated triggers two network queries —
one in `get_release_date` and a second in `get_latest_version` — not one. -/
theorem claim_C9_counterexample :
    (main_process (fun _ => some [⟨"1.0", true, [some 0]⟩]) 200000000
        [some ("numpy", [(">=", some "1.0")])]).2 = ["numpy", "numpy"]
    ∧ ((main_process (fun _ => some [⟨"1.0", true, [some 0]⟩]) 200000000
        [some ("numpy", [(">=", some "1.0")])]).2).length ≠ 1 := by
  have h2 : ((SPEC0_DEP_AGE_YEARS : Int) : ℚ) = 2 := by
    norm_num [SPEC0_DEP_AGE_YEARS]
  have hout : is_outdated (some 0) ((SPEC0_DEP_AGE_YEARS : Int) : ℚ)
      200000000 = true := by
    rw [h2, is_outdated_two_iff]; norm_num
  have hrd : get_release_date (some [(⟨"1.0", true, [some 0]⟩ : Release)])
      "1.0" = some 0 := by rfl
  have hl : get_latest_version (some [(⟨"1.0", true, [some 0]⟩ : Release)])
      200000000 = none := by rfl
  have hx : extract_required_version (some ("numpy", [(">=", some "1.0")]))
      = (some "numpy", some "1.0") := by rfl
  have h1 : (main_process (fun _ => some [⟨"1.0", true, [some 0]⟩]) 200000000
      [some ("numpy", [(">=", some "1.0")])]).2 = ["numpy", "numpy"] := by
    rw [main_process_cons]
    simp only [hx, hrd, hl, hout, Option.isSome_some, Bool.true_and]
    simp [main_process]
  exact ⟨h1, by rw [h1]; simp⟩

/-- Claim C9 (amended): the run performs one query per declaration
occurrence with an extractable `(name, version)` (its `get_release_date`
call), plus one more for each such occurrence classified outdated (its
`get_latest_version` call).  Queries are not deduplicated across
occurrences of the same package, and an outdated package costs two
queries, not one. -/
theorem claim_C9_amended :
    ∀ index now deps,
      ((main_process index now deps).2).length =
        deps.countP dep_has_version + deps.countP (dep_outdated index now) := by
  intro index now deps
  induction deps with
  | nil => rfl
  | cons dep rest ih =>
    rw [main_process_cons, List.countP_cons, List.countP_cons]
    cases hx : extract_required_version dep with
    | mk n v =>
      match n, v with
      | some pkg', some ver' =>
        have hhv : dep_has_version dep = true := by
          simp [dep_has_version, hx]
        by_cases hc : ((get_release_date (index pkg') ver').isSome
            && is_outdated (get_release_date (index pkg') ver')
                (SPEC0_DEP_AGE_YEARS : ℚ) now) = true
        · have hdo : dep_outdated index now dep = true := by
            simp only [dep_outdated, hx]
            exact hc
          simp only [hx]
          rw [if_pos hc]
          cases hl : get_latest_version (index pkg') now with
          | some latest =>
            simp only [hl, hhv, hdo, List.length_cons, if_pos]
            simp [ih]
            omega
          | none =>
            simp only [hl, hhv, hdo, List.length_cons, if_pos]
            simp [ih]
            omega
        · have hdo : dep_outdated index now dep = false := by
            simp only [dep_outdated, hx]
            exact Bool.eq_false_iff.2 hc
          simp only [hx]
          rw [if_neg hc]
          simp only [hhv, hdo, List.length_cons]
          simp [ih]
          omega
      | some pkg', none =>
        have hhv : dep_has_version dep = false := by
          simp [dep_has_version, hx]
        have hdo : dep_outdated index now dep = false := by
          simp [dep_outdated, hx]
        simp only [hx, hhv, hdo]
        simp [ih]
      | none, some ver' =>
        have hhv : dep_has_version dep = false := by
          simp [dep_has_version, hx]
        have hdo : dep_outdated index now dep = false := by
          simp [dep_outdated, hx]
        simp only [hx, hhv, hdo]
        simp [ih]
      | none, none =>
        have hhv : dep_has_version dep = false := by
          simp [dep_has_version, hx]
        have hdo : dep_outdated index now dep = false := by
          simp [dep_outdated, hx]
        simp only [hx, hhv, hdo]
        simp [ih]

/-! ### Claim C3: rewriters only modify matching lines -/

theorem patch_requirements_core_fst (outdated : List OutdatedEntry)
    (ls : List (List Char)) :
    (patch_requirements_core outdated ls).1 = ls.map (patchReqLine outdated) := by
  induction ls with
  | nil => rfl
  | cons l t ih => simp [patch_requirements_core, patchReqLine, ih]

theorem patch_setup_core_fst (outdated : List OutdatedEntry)
    (ls : List (List Char)) :
    (patch_setup_core outdated ls).1 = ls.map (patchSetupLine outdated) := by
  induction ls with
  | nil => rfl
  | cons l t ih => simp [patch_setup_core, patchSetupLine, ih]

theorem getD_map_of_fixed {f : List Char → List Char} (hf : f [] = [])
    (l : List (List Char)) (i : Nat) :
    (l.map f).getD i [] = f (l.getD i []) := by
  induction l generalizing i with
  | nil => simp [hf]
  | cons a t ih =>
    cases i with
    | zero => simp
    | succ n => simpa using ih n

theorem patchReqLine_nil (outdated : List OutdatedEntry) :
    patchReqLine outdated [] = [] := rfl

theorem patchReqLine_frame {outdated : List OutdatedEntry} {line : List Char}
    (h : patchReqLine outdated line ≠ line) :
    ¬(strip line).head? = some '#' ∧ strip line ≠ [] ∧
      ∃ e ∈ outdated, matchesReq e.pkg (strip line) = true := by
  unfold patchReqLine patchReqLineL at h
  simp only at h
  split at h
  · exact absurd rfl h
  · next h1 =>
    split at h
    · next e hf =>
      simp only [Bool.or_eq_true, decide_eq_true_eq, not_or, Bool.not_eq_true] at h1
      refine ⟨h1.1, ?_, e, List.mem_of_find?_eq_some hf,
        by simpa using List.find?_some hf⟩
      intro hnil
      have : (strip line).isEmpty = true := by simp [hnil]
      rw [this] at h1
      exact absurd h1.2 (by simp)
    · exact absurd rfl h

theorem patchSetupLine_nil (outdated : List OutdatedEntry) :
    patchSetupLine outdated [] = [] := by
  unfold patchSetupLine patchSetupLineL
  have hnone : outdated.find? (fun e => setupSearch e.pkg e.old_version []) = none := by
    rw [List.find?_eq_none]
    intro e _
    show ¬ _ = true
    cases hp : e.pkg with
    | nil => simp [setupSearch, setupMatchAt, litHere, wsThen, opTail, hp]
    | cons c cs => simp [setupSearch, setupMatchAt, litHere, List.isPrefixOf, hp]
  rw [hnone]

theorem patchSetupLine_frame {outdated : List OutdatedEntry} {line : List Char}
    (h : patchSetupLine outdated line ≠ line) :
    ∃ e ∈ outdated, setupSearch e.pkg e.old_version line = true := by
  unfold patchSetupLine patchSetupLineL at h
  cases hf : outdated.find? (fun e => setupSearch e.pkg e.old_version line) with
  | none => simp only [hf] at h; exact absurd rfl h
  | some e =>
    exact ⟨e, List.mem_of_find?_eq_some hf, by simpa using List.find?_some hf⟩

theorem patchPyprojLineL_frame {reqName : List Char → Option (List Char)}
    {outdated : List OutdatedEntry} {inside2 : Bool} {line : List Char}
    (h : (patchPyprojLineL reqName outdated inside2 line).1 ≠ line) :
    inside2 = true ∧
      ∃ pkg, get_line_package reqName (strip line) = some pkg ∧
        ∃ e ∈ outdated, pkg = e.pkg ∧ containsSub e.old_version line = true := by
  unfold patchPyprojLineL at h
  simp only at h
  split at h
  · next hcond =>
    simp only [Bool.and_eq_true] at hcond
    split at h
    · next pkg hglp =>
      split at h
      · next e hfind =>
        have hp := List.find?_some hfind
        simp only [Bool.and_eq_true, beq_iff_eq] at hp
        exact ⟨hcond.1, pkg, hglp, e, List.mem_of_find?_eq_some hfind, hp.1, hp.2⟩
      · exact absurd rfl h
    · exact absurd rfl h
  · exact absurd rfl h

theorem patch_pyproject_core_length (reqName : List Char → Option (List Char))
    (outdated : List OutdatedEntry) :
    ∀ (inside : Bool) (ls : List (List Char)),
      ((patch_pyproject_core reqName outdated inside ls).1).length = ls.length := by
  intro inside ls
  induction ls generalizing inside with
  | nil => rfl
  | cons l t ih => simp [patch_pyproject_core, ih]

theorem pyproj_frame_aux (reqName : List Char → Option (List Char))
    (outdated : List OutdatedEntry) :
    ∀ (inside : Bool) (ls : List (List Char)) (i : Nat),
      ((patch_pyproject_core reqName outdated inside ls).1).getD i [] ≠ ls.getD i [] →
      insideStep (insideFrom inside ls i) (ls.getD i []) = true ∧
        ∃ pkg, get_line_package reqName (strip (ls.getD i [])) = some pkg ∧
          ∃ e ∈ outdated, pkg = e.pkg ∧ containsSub e.old_version (ls.getD i []) = true := by
  intro inside ls
  induction ls generalizing inside with
  | nil =>
    intro i h
    exact absurd (by simp [patch_pyproject_core]) h
  | cons l t ih =>
    intro i h
    cases i with
    | zero =>
      have h0 : (patchPyprojLineL reqName outdated (insideStep inside l) l).1 ≠ l := by
        simpa [patch_pyproject_core] using h
      obtain ⟨hin, rest⟩ := patchPyprojLineL_frame h0
      exact ⟨by simpa [insideFrom] using hin, by simpa using rest⟩
    | succ n =>
      have h' : ((patch_pyproject_core reqName outdated (insideStep inside l) t).1).getD n []
          ≠ t.getD n [] := by
        simpa [patch_pyproject_core] using h
      have hr := ih (insideStep inside l) n h'
      exact ⟨by simpa [insideFrom, List.take_succ_cons] using hr.1, by simpa using hr.2⟩

/-- Claim C3: each rewriter preserves the line count, and a line whose
output differs from its input must match an outdated package under that
rewriter's own matching rule; contrapositively, every non-matching line
(comments, blank lines, unrelated declarations) is reproduced
byte-identically in its original position. -/
theorem claim_C3 :
    (∀ (outdated : List OutdatedEntry) (lines : List (List Char)),
      ((patch_requirements_core outdated lines).1).length = lines.length
      ∧ ∀ i, ((patch_requirements_core outdated lines).1).getD i [] ≠ lines.getD i [] →
          ¬(strip (lines.getD i [])).head? = some '#' ∧ strip (lines.getD i []) ≠ [] ∧
          ∃ e ∈ outdated, matchesReq e.pkg (strip (lines.getD i [])) = true)
    ∧ (∀ (outdated : List OutdatedEntry) (lines : List (List Char)),
      ((patch_setup_core outdated lines).1).length = lines.length
      ∧ ∀ i, ((patch_setup_core outdated lines).1).getD i [] ≠ lines.getD i [] →
          ∃ e ∈ outdated, setupSearch e.pkg e.old_version (lines.getD i []) = true)
    ∧ (∀ (reqName : List Char → Option (List Char)) (outdated : List OutdatedEntry)
          (lines : List (List Char)),
      ((patch_pyproject_core reqName outdated false lines).1).length = lines.length
      ∧ ∀ i, ((patch_pyproject_core reqName outdated false lines).1).getD i [] ≠ lines.getD i [] →
          ∃ pkg, get_line_package reqName (strip (lines.getD i [])) = some pkg ∧
          ∃ e ∈ outdated, pkg = e.pkg ∧ containsSub e.old_version (lines.getD i []) = true) := by
  refine ⟨?_, ?_, ?_⟩
  · intro outdated lines
    rw [patch_requirements_core_fst]
    refine ⟨by simp, ?_⟩
    intro i h
    rw [getD_map_of_fixed (patchReqLine_nil outdated)] at h
    exact patchReqLine_frame h
  · intro outdated lines
    rw [patch_setup_core_fst]
    refine ⟨by simp, ?_⟩
    intro i h
    rw [getD_map_of_fixed (patchSetupLine_nil outdated)] at h
    exact patchSetupLine_frame h
  · intro reqName outdated lines
    refine ⟨patch_pyproject_core_length reqName outdated false lines, ?_⟩
    intro i h
    exact (pyproj_frame_aux reqName outdated false lines i h).2

/-- Witness for claim C3 at a concrete input: the changed line
`foo>=1.0.0` of a one-line file is indeed a non-comment, non-blank line
matching the outdated entry. -/
theorem claim_C3_witness :
    ¬(strip (([("foo>=1.0.0\n").toList]).getD 0 [])).head? = some '#'
    ∧ strip (([("foo>=1.0.0\n").toList]).getD 0 []) ≠ []
    ∧ ∃ e ∈ [(⟨("foo").toList, ("1.0.0").toList, ("1.4.2").toList⟩ : OutdatedEntry)],
        matchesReq e.pkg (strip (([("foo>=1.0.0\n").toList]).getD 0 [])) = true :=
  (claim_C3.1 [⟨("foo").toList, ("1.0.0").toList, ("1.4.2").toList⟩]
    [("foo>=1.0.0\n").toList]).2 0 (by decide)

/-! ### Claim C8: the pyproject rewrite conditions -/

theorem verBoundMatchAt_ne (c : Char) (cs : List Char) (hc : c ≠ '>') :
    verBoundMatchAt (c :: cs) = none := by
  unfold verBoundMatchAt
  split
  · next heq => injection heq with h1 _; exact absurd h1 hc
  · next hne heq => injection heq with h1 _; exact absurd h1 hc
  · rfl

theorem verBoundSubAux_no_gt (new : List Char) :
    ∀ line : List Char, line.contains '>' = false →
      verBoundSubAux new 0 line = line := by
  intro line
  induction line with
  | nil => intro _; rfl
  | cons c cs ih =>
    intro h
    simp only [List.contains_cons, Bool.or_eq_false_iff, beq_eq_false_iff_ne] at h
    rw [verBoundSubAux, verBoundMatchAt_ne c cs (by
      intro hcc; exact h.1 hcc.symm)]
    rw [ih (by simpa using h.2)]

/-- Counterexample to claim C8: a dependencies-array line using an `==`
pin.  The rewrite branch fires (the change is logged), but the version
pattern `>=?\s*[\d\.a-zA-Z]+` matches nothing in the line, so the "new"
line is byte-identical to the old one and never carries
`>=replacement_version`. -/
theorem claim_C8_counterexample :
    (patch_pyproject_core
        (fun s => if s = ("foo==1.0").toList then some (("foo").toList) else none)
        [⟨("foo").toList, ("1.0").toList, ("2.0").toList⟩] false
        [("dependencies = [\n").toList, ("    \"foo==1.0\",\n").toList,
         ("]\n").toList]).2
      = [(("\"foo==1.0\",").toList, ("\"foo==1.0\",").toList)]
    ∧ (patch_pyproject_core
        (fun s => if s = ("foo==1.0").toList then some (("foo").toList) else none)
        [⟨("foo").toList, ("1.0").toList, ("2.0").toList⟩] false
        [("dependencies = [\n").toList, ("    \"foo==1.0\",\n").toList,
         ("]\n").toList]).1
      = [("dependencies = [\n").toList, ("    \"foo==1.0\",\n").toList,
         ("]\n").toList]
    ∧ containsSub ('>' :: '=' :: ("2.0").toList)
        (("    \"foo==1.0\",\n").toList) = false := by
  refine ⟨by decide, by decide, by decide⟩

/-- Claim C8 (amended): a line is changed only when it is positionally
inside the recognized dependencies block, its recovered package name
equals an outdated entry's name, and its text still contains that entry's
declared version; the rewrite replaces every substring matching
`>=?\s*[\d\.a-zA-Z]+` by `>=replacement_version` and keeps every other
character (quoting and punctuation) in place — in particular a line whose
version bound is not introduced by `>` (e.g. an `==` pin) contains no such
substring and is left textually unchanged even though it is logged as
rewritten. -/
theorem claim_C8_amended :
    (∀ (reqName : List Char → Option (List Char)) (outdated : List OutdatedEntry)
        (lines : List (List Char)) (i : Nat),
      ((patch_pyproject_core reqName outdated false lines).1).getD i [] ≠ lines.getD i [] →
        insideStep (insideFrom false lines i) (lines.getD i []) = true ∧
        ∃ pkg, get_line_package reqName (strip (lines.getD i [])) = some pkg ∧
        ∃ e ∈ outdated, pkg = e.pkg ∧ containsSub e.old_version (lines.getD i []) = true)
    ∧ (∀ (new line : List Char), line.contains '>' = false →
        verBoundSub new line = line)
    ∧ verBoundSub (("2.5").toList) (("    \"bar>=1.0\",\n").toList)
        = ("    \"bar>=2.5\",\n").toList := by
  exact ⟨fun reqName outdated lines i h =>
      pyproj_frame_aux reqName outdated false lines i h,
    fun new line h => verBoundSubAux_no_gt new line h, by decide⟩

/-- Witness for claim C8 (amended) at a concrete input: an `==`-pinned
line contains no `>` and passes the substitution unchanged. -/
theorem claim_C8_witness :
    verBoundSub (("9").toList) (("    \"foo==1.0\",\n").toList)
      = ("    \"foo==1.0\",\n").toList :=
  claim_C8_amended.2.1 (("9").toList) (("    \"foo==1.0\",\n").toList) (by decide)

/-! ### Claim C4: idempotence of the plain-list and legacy-script rewrites -/

/-- Counterexample to claim C4: the legacy-script rewriter is not
idempotent.  With the outdated entry `(bar, 2, 2.5)` — the old version a
prefix of the replacement — the first pass turns `install_requires=["bar==2"]`
into `install_requires=["bar>=2.5"]`, and the second pass matches
`bar>=2` inside the replacement and produces
`install_requires=["bar>=2.5.5"]`. -/
theorem claim_C4_counterexample :
    (patch_setup_core [⟨("bar").toList, ("2").toList, ("2.5").toList⟩]
        [("install_requires=[\"bar==2\"]\n").toList]).1
      = [("install_requires=[\"bar>=2.5\"]\n").toList]
    ∧ (patch_setup_core [⟨("bar").toList, ("2").toList, ("2.5").toList⟩]
        [("install_requires=[\"bar>=2.5\"]\n").toList]).1
      = [("install_requires=[\"bar>=2.5.5\"]\n").toList]
    ∧ (patch_setup_core [⟨("bar").toList, ("2").toList, ("2.5").toList⟩]
        ((patch_setup_core [⟨("bar").toList, ("2").toList, ("2.5").toList⟩]
          [("install_requires=[\"bar==2\"]\n").toList]).1)).1
      ≠ (patch_setup_core [⟨("bar").toList, ("2").toList, ("2.5").toList⟩]
          [("install_requires=[\"bar==2\"]\n").toList]).1 := by
  refine ⟨by decide, by decide, by decide⟩

theorem map_id_of_pointwise {f : List Char → List Char} :
    ∀ ls : List (List Char), (∀ l ∈ ls, f l = l) → ls.map f = ls
  | [], _ => rfl
  | l :: t, h => by
    rw [List.map_cons, h l (by simp),
      map_id_of_pointwise t (fun x hx => h x (by simp [hx]))]

theorem cleanPkg_spec {p : List Char} (h : cleanPkg p = true) :
    ∀ c ∈ p, isSpaceChar c = false ∧ isOpChar c = false := by
  intro c hc
  have := List.all_eq_true.1 h c hc
  simp only [Bool.and_eq_true, Bool.not_eq_true'] at this
  exact this

theorem stripTrail_append_last {p : Char → Bool} (q B : List Char) (c : Char)
    (hc : p c = false) :
    stripTrailBy p ((q ++ [c]) ++ B) = (q ++ [c]) ++ stripTrailBy p B := by
  unfold stripTrailBy
  rw [List.reverse_append, List.reverse_append, List.dropWhile_append]
  by_cases hB : (B.reverse.dropWhile p).isEmpty
  · rw [if_pos hB]
    have hBnil : B.reverse.dropWhile p = [] := by
      simpa [List.isEmpty_iff] using hB
    rw [hBnil]
    simp [List.dropWhile_cons, hc]
  · rw [if_neg hB]
    rw [List.reverse_append]
    simp
  
theorem stripTrail_absorb {p : Char → Bool} (v : List Char) (c : Char)
    (hc : p c = true) :
    stripTrailBy p (v ++ [c]) = stripTrailBy p v := by
  unfold stripTrailBy
  rw [List.reverse_append]
  simp [List.dropWhile_cons, hc]

theorem stripLead_clean {e : OutdatedEntry} (hce : cleanPkg e.pkg = true) :
    stripLeadBy isSpaceChar (reqReplacement e) = reqReplacement e := by
  cases hp : e.pkg with
  | nil =>
    have h1 : isSpaceChar '>' = false := by decide
    simp [reqReplacement, hp, stripLeadBy, List.dropWhile_cons, h1]
  | cons c t =>
    have hc : isSpaceChar c = false :=
      (cleanPkg_spec hce c (by simp [hp])).1
    simp [reqReplacement, hp, stripLeadBy, List.dropWhile_cons, hc]

theorem strip_reqReplacement {e : OutdatedEntry} (hce : cleanPkg e.pkg = true) :
    strip (reqReplacement e)
      = e.pkg ++ '>' :: '=' :: stripTrailBy isSpaceChar e.new_version := by
  unfold strip stripBy
  rw [stripLead_clean hce]
  have hshape : reqReplacement e
      = ((e.pkg ++ ['>']) ++ ['=']) ++ (e.new_version ++ ['\n']) := by
    simp [reqReplacement]
  rw [hshape, stripTrail_append_last _ _ '=' (by decide),
    stripTrail_absorb _ '\n' (by decide)]
  simp

/-- A hygienic name matching another entry's replacement line must be that
entry's own name: it cannot stop inside the other name (the next character
is neither an operator nor whitespace) and cannot extend past it (it would
contain `>`). -/
theorem matchesReq_repl_pkg {p q w : List Char} (hp : cleanPkg p = true)
    (hq : cleanPkg q = true)
    (h : matchesReq p (q ++ '>' :: '=' :: w) = true) : p = q := by
  unfold matchesReq at h
  simp only [Bool.and_eq_true] at h
  obtain ⟨hpre, hmatch⟩ := h
  obtain ⟨t, ht⟩ := eq_append_of_isPrefixOf hpre
  rw [List.append_eq_append_iff] at ht
  rcases ht with ⟨a, ha1, ha2⟩ | ⟨c', hc1, hc2⟩
  · cases a with
    | nil => simpa using ha1
    | cons c a' =>
      have hcgt : c = '>' := by
        have h2 := ha2
        rw [List.cons_append] at h2
        injection h2 with h1 _
        exact h1.symm
      have hmem : c ∈ p := by rw [ha1]; simp
      have hop := (cleanPkg_spec hp c hmem).2
      rw [hcgt] at hop
      exact absurd hop (by decide)
  · cases c' with
    | nil => simpa using hc1.symm
    | cons c cs' =>
      exfalso
      have hdrop : (q ++ '>' :: '=' :: w).drop p.length
          = c :: (cs' ++ '>' :: '=' :: w) := by
        rw [hc1, List.append_assoc, List.drop_left, List.cons_append]
      rw [hdrop] at hmatch
      have hcq : c ∈ q := by rw [hc1]; simp
      have hcspec := cleanPkg_spec hq c hcq
      rw [List.dropWhile_cons, if_neg (by simp [hcspec.1])] at hmatch
      simp only [reqTailMatch, Bool.and_eq_true] at hmatch
      exact absurd hmatch.1 (by simp [hcspec.2])

/-- An entry always re-matches its own replacement line, up to the
`$`-admissibility of the replacement version's tail. -/
theorem matchesReq_repl_self (q w : List Char) :
    matchesReq q (q ++ '>' :: '=' :: w) = dollarTail ('=' :: w) := by
  unfold matchesReq
  rw [isPrefixOf_append_self, List.drop_left]
  rw [List.dropWhile_cons, if_neg (by decide)]
  simp [reqTailMatch, show isOpChar '>' = true from by decide]

/-- A replacement line written by the first pass is a fixed point of the
per-line rewrite when all package names are hygienic. -/
theorem patchReqLine_repl_fixed {outdated : List OutdatedEntry}
    (hcl : ∀ e ∈ outdated, cleanPkg e.pkg = true)
    {e : OutdatedEntry} {s : List Char}
    (hf : outdated.find? (fun e => matchesReq e.pkg s) = some e) :
    patchReqLine outdated (reqReplacement e) = reqReplacement e := by
  have hce : cleanPkg e.pkg = true := hcl e (List.mem_of_find?_eq_some hf)
  have hstrip := strip_reqReplacement hce
  set w := stripTrailBy isSpaceChar e.new_version with hw
  unfold patchReqLine patchReqLineL
  simp only [hstrip]
  by_cases hhash : (decide ((e.pkg ++ '>' :: '=' :: w).head? = some '#')
      || (e.pkg ++ '>' :: '=' :: w).isEmpty) = true
  · rw [if_pos hhash]
  · rw [if_neg hhash]
    obtain ⟨hpe, l₁, l₂, hdec, hall⟩ := find?_decomp hf
    have hmem_of_dec : ∀ a : OutdatedEntry, a ∈ l₁ ∨ a ∈ l₂ → a ∈ outdated := by
      intro a ha
      rw [hdec]
      rcases ha with ha | ha
      · exact List.mem_append_left _ ha
      · exact List.mem_append_right _ (List.mem_cons_of_mem _ ha)
    have halias : ∀ a : OutdatedEntry, a ∈ outdated →
        matchesReq a.pkg (e.pkg ++ '>' :: '=' :: w) = true → a.pkg = e.pkg := by
      intro a ha hm
      exact matchesReq_repl_pkg (hcl a ha) hce hm
    have hl₁ : ∀ a ∈ l₁, (fun x : OutdatedEntry =>
        matchesReq x.pkg (e.pkg ++ '>' :: '=' :: w)) a = false := by
      intro a ha
      by_contra hcontra
      have hm : matchesReq a.pkg (e.pkg ++ '>' :: '=' :: w) = true :=
        eq_true_of_ne_false hcontra
      have hpkg := halias a (hmem_of_dec a (Or.inl ha)) hm
      have h1 : matchesReq a.pkg s = false := hall a ha
      rw [hpkg] at h1
      have h2 : matchesReq e.pkg s = true := hpe
      exact absurd h2 (by simp [h1])
    rw [hdec, find?_append_all_false _ hl₁]
    by_cases hself : (fun x : OutdatedEntry =>
        matchesReq x.pkg (e.pkg ++ '>' :: '=' :: w)) e = true
    · have hfind2 : List.find? (fun x : OutdatedEntry =>
          matchesReq x.pkg (e.pkg ++ '>' :: '=' :: w)) (e :: l₂) = some e :=
        List.find?_cons_of_pos _ hself
      rw [hfind2]
    · have hfind2 : List.find? (fun x : OutdatedEntry =>
          matchesReq x.pkg (e.pkg ++ '>' :: '=' :: w)) (e :: l₂)
          = List.find? (fun x : OutdatedEntry =>
              matchesReq x.pkg (e.pkg ++ '>' :: '=' :: w)) l₂ :=
        List.find?_cons_of_neg _ hself
      have hl₂ : ∀ a ∈ l₂, ¬ (fun x : OutdatedEntry =>
          matchesReq x.pkg (e.pkg ++ '>' :: '=' :: w)) a = true := by
        intro a ha hm
        have hpkg := halias a (hmem_of_dec a (Or.inr ha)) hm
        apply hself
        show matchesReq e.pkg (e.pkg ++ '>' :: '=' :: w) = true
        have hm' : matchesReq a.pkg (e.pkg ++ '>' :: '=' :: w) = true := hm
        rw [hpkg] at hm'
        exact hm'
      rw [hfind2, List.find?_eq_none.2 hl₂]

/-- Per-line idempotence of the plain-list rewrite under name hygiene. -/
theorem patchReqLine_idem {outdated : List OutdatedEntry}
    (hcl : ∀ e ∈ outdated, cleanPkg e.pkg = true) (line : List Char) :
    patchReqLine outdated (patchReqLine outdated line)
      = patchReqLine outdated line := by
  by_cases h1 : (decide ((strip line).head? = some '#')
      || (strip line).isEmpty) = true
  · have hfl : patchReqLine outdated line = line := by
      unfold patchReqLine patchReqLineL
      simp only []
      rw [if_pos h1]
    rw [hfl, hfl]
  · cases hf : outdated.find? (fun e => matchesReq e.pkg (strip line)) with
    | none =>
      have hfl : patchReqLine outdated line = line := by
        unfold patchReqLine patchReqLineL
        simp only []
        rw [if_neg h1]
        simp only [hf]
      rw [hfl, hfl]
    | some e =>
      have hfl : patchReqLine outdated line = reqReplacement e := by
        unfold patchReqLine patchReqLineL
        simp only []
        rw [if_neg h1]
        simp only [hf]
      rw [hfl]
      exact patchReqLine_repl_fixed hcl hf

/-- Claim C4 (amended): the plain-list rewrite is idempotent for every
input and every outdated set whose package names contain no whitespace and
no comparison-operator characters; the legacy-script rewrite is not
idempotent in general (see the counterexample) — a second pass is
guaranteed to leave its input unchanged whenever no entry's pattern still
matches any line of the first pass's output (a sufficient condition only:
a still-matching pattern may happen to rewrite a line to itself, e.g. when
the replacement version equals the old one). -/
theorem claim_C4_amended :
    (∀ (outdated : List OutdatedEntry) (lines : List (List Char)),
      (∀ e ∈ outdated, cleanPkg e.pkg = true) →
      (patch_requirements_core outdated
          ((patch_requirements_core outdated lines).1)).1
        = (patch_requirements_core outdated lines).1)
    ∧ (∀ (outdated : List OutdatedEntry) (lines : List (List Char)),
      (∀ l ∈ (patch_setup_core outdated lines).1, ∀ e ∈ outdated,
          setupSearch e.pkg e.old_version l = false) →
      (patch_setup_core outdated ((patch_setup_core outdated lines).1)).1
        = (patch_setup_core outdated lines).1) := by
  constructor
  · intro outdated lines hcl
    set out := (patch_requirements_core outdated lines).1 with hout
    rw [patch_requirements_core_fst]
    apply map_id_of_pointwise
    intro l hl
    rw [hout, patch_requirements_core_fst] at hl
    obtain ⟨l0, -, rfl⟩ := List.mem_map.1 hl
    exact patchReqLine_idem hcl l0
  · intro outdated lines hno
    set out := (patch_setup_core outdated lines).1 with hout
    rw [patch_setup_core_fst]
    apply map_id_of_pointwise
    intro l hl
    unfold patchSetupLine patchSetupLineL
    have hnone : outdated.find?
        (fun e => setupSearch e.pkg e.old_version l) = none := by
      rw [List.find?_eq_none]
      intro e he
      simp [hno l hl e he]
    rw [hnone]

/-- Witness for claim C4 (amended) at a concrete input: rewriting
`foo>=1.0.0` is stable under a second pass (and the package name is
hygienic). -/
theorem claim_C4_witness :
    (patch_requirements_core
        [⟨("foo").toList, ("1.0.0").toList, ("1.4.2").toList⟩]
        ((patch_requirements_core
          [⟨("foo").toList, ("1.0.0").toList, ("1.4.2").toList⟩]
          [("foo>=1.0.0\n").toList]).1)).1
      = (patch_requirements_core
          [⟨("foo").toList, ("1.0.0").toList, ("1.4.2").toList⟩]
          [("foo>=1.0.0\n").toList]).1 :=
  claim_C4_amended.1 [⟨("foo").toList, ("1.0.0").toList, ("1.4.2").toList⟩]
    [("foo>=1.0.0\n").toList] (by decide)
